import Mathlib

/-!
Verification development for the brain-dashboard repository.

The development shallowly embeds the Python modules
`brain_dashboard/run_analysis.py`, `brain_dashboard/app.py`,
`brain_dashboard/data_loaders.py` and
`brain_dashboard/scripts/watch_folder.py`.

Modelling conventions:
- Python floats are modelled as exact fractions (`Frac`, an integer
  numerator/denominator pair, kept unnormalised so that every operation is
  plain integer arithmetic and reduces in the kernel).  No claim under
  consideration depends on floating-point rounding.
- pandas Series and DataFrames are modelled by explicit structures carrying
  an index, columns and a lookup function; `.loc` access is fallible
  (`Option`), mirroring `KeyError`.
- Calls into external libraries (scipy statistical kernels) are parameters
  of the embedding: the repository's code treats them as black boxes, so the
  embedding quantifies over them.  A kernel returning `none` models the
  library call raising.
- The Benjamini-Hochberg adjustment performed by the external
  `statsmodels.multipletests(..., method='fdr_bh')` call is modelled
  concretely (it is exact rational arithmetic); ties in its argsort are
  resolved stably.
- `try/except` boundaries become `Option`: `none` is the caught-and-logged
  failure sentinel (the Python functions return `None` there).
- Python dicts that are built by repeated `d[k] = v` assignments are
  modelled as association lists with insert-or-update semantics, which
  preserves the dict's insertion order.
-/

namespace Brain

/-- Exact-fraction model of a Python float.  Denominators are positive in
every value this development constructs; the operations below assume that. -/
structure Frac where
  num : Int
  den : Int
  deriving DecidableEq

/-- Embed an integer literal as a fraction. -/
def Frac.ofInt (n : Int) : Frac := ⟨n, 1⟩

/-- Addition `a + b` on fractions (cross multiplication, no normalisation). -/
def Frac.add (a b : Frac) : Frac := ⟨a.num * b.den + b.num * a.den, a.den * b.den⟩

/-- Multiplication `a * b` on fractions. -/
def Frac.mul (a b : Frac) : Frac := ⟨a.num * b.num, a.den * b.den⟩

/-- Comparison `a <= b` on fractions with positive denominators. -/
def Frac.le (a b : Frac) : Bool := a.num * b.den ≤ b.num * a.den

/-- Minimum `min a b` on fractions. -/
def Frac.fmin (a b : Frac) : Frac := if a.le b then a else b

/-- The float `1.0`. -/
def Frac.one : Frac := ⟨1, 1⟩

/-- String lowercasing, `str.lower()` in Python (ASCII range, which covers
every test name the dashboard uses).  Built from the character list so that
the kernel can evaluate it. -/
def pyLower (s : String) : String := ⟨s.toList.map Char.toLower⟩

/-- Model of `os.path.basename`: the part of the path after the last slash. -/
def pyBasename (path : String) : String :=
  ⟨path.toList.foldl (fun acc c => if c = '/' then [] else acc ++ [c]) []⟩

/-- Index of the last occurrence of `c` in the character list, if any. -/
def lastIdxOf (c : Char) (cs : List Char) : Option Nat :=
  ((cs.enum.filter (fun p => p.2 = c)).map (fun p => p.1)).getLast?

/-- Model of `os.path.splitext(...)[0]` for a bare file name (no slash): the name
without its extension.  CPython strips at the last dot provided some
character before it is not a dot (so leading-dot-only names keep the dot). -/
def pySplitextRoot (s : String) : String :=
  let cs := s.toList
  match lastIdxOf '.' cs with
  | none => s
  | some d => if (cs.take d).any (fun c => c ≠ '.') then ⟨cs.take d⟩ else s

/-- Does the file name start with a dot? (`filename.startswith('.')`). -/
def startsWithDot (s : String) : Bool :=
  match s.toList with
  | [] => false
  | c :: _ => c = '.'

/-! ## Series and the test-validity check (`run_analysis.py`) -/

/-- The dtype of a pandas Series, as far as `check_continues_variable`
inspects it: floating, integer, or anything else (`object` for categorical
string columns). -/
inductive Dtype where
  | floating
  | integer
  | obj
  deriving DecidableEq

/-- A pandas Series of feature values: the values in row order plus the
column dtype.  Values carry no nulls (the claims under study do not involve
missing data, and `nunique`/`dropna` agree with this model on null-free
data). -/
structure Series where
  values : List Frac
  dtype : Dtype
  deriving DecidableEq

/-- Distinct values in order of first appearance (`pandas` `unique`). -/
def uniqueFirstAux (seen : List Frac) : List Frac → List Frac
  | [] => []
  | x :: xs => if x ∈ seen then uniqueFirstAux seen xs else x :: uniqueFirstAux (x :: seen) xs

/-- Distinct values of a list in order of first appearance. -/
def uniqueFirst (xs : List Frac) : List Frac := uniqueFirstAux [] xs

/-- Embedding of `check_continues_variable(variable)` from `run_analysis.py`: returns
`(is_continuous, n_unique)`.  A variable is continuous when its dtype is a
floating or integer subtype; `n_unique` is the number of distinct values. -/
def check_continues_variable (v : Series) : Bool × Nat :=
  let n_unique := (uniqueFirst v.values).length
  let is_continuous := v.dtype = Dtype.floating ∨ v.dtype = Dtype.integer
  (is_continuous, n_unique)

/-- The test-name constants of `settings.py`. -/
def PEARSON_TEST : String := "pearson"

/-- The constant `settings.SPEARMAN_TEST`. -/
def SPEARMAN_TEST : String := "spearman"

/-- The constant `settings.ANOVA_TEST`. -/
def ANOVA_TEST : String := "anova"

/-- The constant `settings.T_TEST`. -/
def T_TEST : String := "t-test"

/-- Embedding of `is_valid_test(x, test_name)` from `run_analysis.py`.  The test name is
lowercased before comparison. -/
def is_valid_test (x : Series) (test_name : String) : Bool :=
  let c := check_continues_variable x
  let is_continuous := c.1
  let n_unique := c.2
  let t := pyLower test_name
  if t = PEARSON_TEST then is_continuous
  else if t = SPEARMAN_TEST then is_continuous
  else if t = T_TEST then n_unique = 2
  else if t = ANOVA_TEST then decide (n_unique ≥ 3) && !is_continuous
  else false

/-- Claim C1 read literally: the predicate the claim states, with the test
name compared verbatim (no lowercasing). -/
def claimValidLiteral (x : Series) (t : String) : Bool :=
  let c := check_continues_variable x
  ((t = PEARSON_TEST ∨ t = SPEARMAN_TEST) && c.1)
    || (t = T_TEST && c.2 = 2)
    || (t = ANOVA_TEST && decide (c.2 ≥ 3) && !c.1)

/-- Claim C1 amended: the same predicate once the test name is compared
case-insensitively (lowercased first), as the source does. -/
def claimValidCI (x : Series) (t : String) : Bool :=
  claimValidLiteral x (pyLower t)

/-! ## DataFrames and `.loc` access -/

/-- The region-volume DataFrame: row labels (subject names), column labels
(brain regions) and a total lookup function.  `loc` access below is
fallible, so lookups outside the index never reach `data`. -/
structure DataFrame where
  index : List String
  columns : List String
  data : String → String → Frac

/-- Access `df.loc[rows, col]` on a volume DataFrame: the column values over the
given rows, or `none` (a `KeyError`) when the column is absent or some row
label is not in the index. -/
def DataFrame.locCol (df : DataFrame) (rows : List String) (col : String) : Option (List Frac) :=
  if rows.all (fun r => df.index.contains r) && df.columns.contains col then
    some (rows.map (fun r => df.data r col))
  else none

/-- The users/feature DataFrame: like `DataFrame` but every column carries a
dtype, so `.loc` slicing yields a `Series`. -/
structure FeatureTable where
  index : List String
  columns : List String
  dtypeOf : String → Dtype
  data : String → String → Frac

/-- Access `users_df.loc[rows, col]`: the feature values over the given rows as a
Series, or `none` (a `KeyError`) when the column is absent or some row label
is not in the index. -/
def FeatureTable.locSeries (df : FeatureTable) (rows : List String) (col : String) : Option Series :=
  if rows.all (fun r => df.index.contains r) && df.columns.contains col then
    some ⟨rows.map (fun r => df.data r col), df.dtypeOf col⟩
  else none

/-! ## Per-region results and the analysis runner -/

/-- One region's result dict.  Each field models the presence or absence of
the corresponding dict key (`r`, `t`, `f`, `p`, `p_adjusted`,
`significant`). -/
structure RegionResult where
  r : Option Frac
  t : Option Frac
  f : Option Frac
  p : Option Frac
  p_adjusted : Option Frac
  significant : Option Bool
  deriving DecidableEq

/-- A fresh result dict holding only the given effect/p entries. -/
def RegionResult.mkRP (r p : Frac) : RegionResult := ⟨some r, none, none, some p, none, none⟩

/-- A fresh result dict for a t-test entry. -/
def RegionResult.mkTP (t p : Frac) : RegionResult := ⟨none, some t, none, some p, none, none⟩

/-- A fresh result dict for an anova entry. -/
def RegionResult.mkFP (f p : Frac) : RegionResult := ⟨none, none, some f, some p, none, none⟩

/-- The neutral result `{'p': 1.0}` stored when no suitable test applies. -/
def RegionResult.neutral : RegionResult := ⟨none, none, none, some Frac.one, none, none⟩

/-- Dict access `res.get('p', 1.0)`. -/
def RegionResult.getP (rr : RegionResult) : Frac := rr.p.getD Frac.one

/-- The scipy statistical kernels the runner calls.  They are external
library routines, so the embedding takes them as parameters; `none` models
the call raising an exception (which the runner's `try/except` turns into
an overall failure). -/
structure StatKernels where
  pearsonr : List Frac → List Frac → Option (Frac × Frac)
  spearmanr : List Frac → List Frac → Option (Frac × Frac)
  ttest_ind : List Frac → List Frac → Option (Frac × Frac)
  f_oneway : List (List Frac) → Option (Frac × Frac)

/-- Python-dict insertion `d[k] = v` on an association list: update the
value in place when the key exists (keeping its position), else append. -/
def dictInsert (l : List (String × RegionResult)) (k : String) (v : RegionResult) :
    List (String × RegionResult) :=
  if l.any (fun e => e.1 = k) then
    l.map (fun e => if e.1 = k then (k, v) else e)
  else l ++ [(k, v)]

/-- Model of `brain_volumes + np.random.normal(0, 100, size=brain_volumes.shape)`:
elementwise addition of the per-region noise draw (the draw is a parameter
of the embedding — Python samples it freshly from the global RNG on every
call). -/
def addNoise (vols : List Frac) (noise : Nat → Frac) : List Frac :=
  vols.enum.map (fun p => Frac.add p.2 (noise p.1))

/-- The group construction of the discrete branch: for each distinct feature
value (in order of first appearance), the volumes at the positions holding
that value, kept only when non-empty. -/
def groupsOf (xs : List Frac) (vols : List Frac) : List (List Frac) :=
  (uniqueFirst xs).foldr
    (fun v acc =>
      let group := ((xs.zip vols).filter (fun q => q.1 = v)).map (fun q => q.2)
      if group.length > 0 then group :: acc else acc)
    []

/-- The body of the per-region loop of `perform_statistical_analysis`: adds
(or not) this region's entry to the accumulated results dict.  `none` models
a raising kernel call. -/
def processRegion (K : StatKernels) (xs : Series) (test : String) (region : String)
    (nvols : List Frac) (acc : List (String × RegionResult)) :
    Option (List (String × RegionResult)) :=
  if (check_continues_variable xs).1 then
    if test = PEARSON_TEST then
      match K.pearsonr xs.values nvols with
      | none => none
      | some rp => some (dictInsert acc region (RegionResult.mkRP rp.1 rp.2))
    else if test = SPEARMAN_TEST then
      match K.spearmanr xs.values nvols with
      | none => none
      | some rp => some (dictInsert acc region (RegionResult.mkRP rp.1 rp.2))
    else some acc
  else
    if (groupsOf xs.values nvols).length = 2 ∧ test = T_TEST then
      match K.ttest_ind ((groupsOf xs.values nvols).headD []) ((groupsOf xs.values nvols).getD 1 []) with
      | none => none
      | some tp => some (dictInsert acc region (RegionResult.mkTP tp.1 tp.2))
    else if (groupsOf xs.values nvols).length > 2 ∧ test = ANOVA_TEST then
      match K.f_oneway (groupsOf xs.values nvols) with
      | none => none
      | some fp => some (dictInsert acc region (RegionResult.mkFP fp.1 fp.2))
    else some (dictInsert acc region RegionResult.neutral)

/-- The `for brain_region in brain_volumes_df.columns` loop.  A failing
`.loc` access or kernel call aborts the whole loop (the exception unwinds to
the outer `try`). -/
def regionLoop (K : StatKernels) (noise : String → Nat → Frac) (xs : Series)
    (users : List String) (bdf : DataFrame) (test : String) :
    List String → List (String × RegionResult) → Option (List (String × RegionResult))
  | [], acc => some acc
  | c :: rest, acc =>
    match bdf.locCol users c with
    | none => none
    | some vols =>
      match processRegion K xs test c (addNoise vols (noise c)) acc with
      | none => none
      | some acc' => regionLoop K noise xs users bdf test rest acc'

/-! ## The Benjamini-Hochberg adjustment (external `multipletests`) -/

/-- Stable insertion of one keyed element into a sorted list (insert after
equal keys, so the overall sort is stable). -/
def insertByKey {α : Type} (key : α → Frac) (x : α) : List α → List α
  | [] => [x]
  | y :: ys =>
    if (key x).le (key y) ∧ ¬ (key y).le (key x) then x :: y :: ys
    else y :: insertByKey key x ys

/-- Stable insertion sort by a fraction-valued key. -/
def sortByKey {α : Type} (key : α → Frac) : List α → List α
  | [] => []
  | x :: xs => insertByKey key x (sortByKey key xs)

/-- Suffix-or pass implementing `reject[:max(nonzero(reject))] = True`: a
position is rejected when it or any later sorted position passes the raw
threshold test. -/
def fillReject : List Bool → List Bool
  | [] => []
  | b :: rest =>
    let rest' := fillReject rest
    (b || rest'.any (fun x => x)) :: rest'

/-- Reverse cumulative minimum:
`np.minimum.accumulate(raw[::-1])[::-1]`. -/
def cumMinFromEnd : List Frac → List Frac
  | [] => []
  | q :: rest =>
    let rest' := cumMinFromEnd rest
    (match rest'.head? with
     | none => q
     | some m => q.fmin m) :: rest'

/-- Model of the external call
`multipletests(pvals, method='fdr_bh')` (default `alpha = 0.05`): the
Benjamini-Hochberg step-up procedure.  On an empty p-value list the library
raises `ZeroDivisionError` (it computes `alpha / float(ntests)` and
`1. / ntests` with `ntests = 0` before dispatching on the method), modelled
as `none`.  On a non-empty list: sorts the p-values (stably — the tie order
of numpy's argsort is unspecified), thresholds against `(i+1)/n * alpha`,
fills rejections below the largest rejected rank, computes `p * n / (i+1)`
with a reverse cumulative minimum clipped at 1, and unsorts both outputs
back to the original positions.  Returns `(rejected, p_adjusted)`. -/
def multipletests_fdr_bh (ps : List Frac) : Option (List Bool × List Frac) :=
  if ps.isEmpty then none
  else
    let n : Int := ps.length
    let sorted := sortByKey (fun p => p.2) ps.enum
    let rejectRaw := sorted.enum.map
      (fun q => (q.2.2).le (Frac.mul ⟨1, 20⟩ ⟨(q.1 : Int) + 1, n⟩))
    let reject := fillReject rejectRaw
    let correctedRaw := sorted.enum.map
      (fun q => Frac.mul q.2.2 ⟨n, (q.1 : Int) + 1⟩)
    let corrected := (cumMinFromEnd correctedRaw).map (fun q => q.fmin Frac.one)
    let tagged := (sorted.map (fun q => q.1)).zip (reject.zip corrected)
    let unsorted := sortByKey (fun e => Frac.ofInt e.1) (tagged.map (fun q => (Int.ofNat q.1, q.2)))
    some ((unsorted.map (fun q => q.2.1)), (unsorted.map (fun q => q.2.2)))

/-- The FDR block of `perform_statistical_analysis`: collect
`res.get('p', 1.0)` over the results dict in insertion order, run one
`multipletests` call on the full list, and attach `p_adjusted` and
`significant` to each region's dict in the same order.  A raising
`multipletests` call (the empty list) propagates as `none`, which the
runner's `except` turns into overall failure. -/
def applyFdrStep (results : List (String × RegionResult)) :
    Option (List (String × RegionResult)) :=
  match multipletests_fdr_bh (results.map (fun e => e.2.getP)) with
  | none => none
  | some mt =>
    some (List.zipWith
      (fun (e : String × RegionResult) (ra : Bool × Frac) =>
        (e.1, { e.2 with p_adjusted := some ra.2, significant := some ra.1 }))
      results (mt.1.zip mt.2))

/-- Embedding of `perform_statistical_analysis` from `run_analysis.py`.  The scipy
kernels and the `np.random.normal` noise draw of line 103 (`TODO: Remove it
in production`) are explicit parameters; logging and the `time.sleep` are
dropped as pure-value-irrelevant.  `none` is the `return None` of the
`except` handler. -/
def perform_statistical_analysis (K : StatKernels) (noise : String → Nat → Frac)
    (selected_users : List String) (selected_feature : String) (apply_fdr : Bool)
    (users_df : FeatureTable) (brain_volumes_df : DataFrame)
    (statistical_test : String) : Option (List (String × RegionResult)) :=
  if selected_feature = "" then none
  else if selected_users.isEmpty then none
  else
    match users_df.locSeries selected_users selected_feature with
    | none => none
    | some xs =>
      match regionLoop K noise xs selected_users brain_volumes_df statistical_test
          brain_volumes_df.columns [] with
      | none => none
      | some results =>
        if apply_fdr then
          match applyFdrStep results with
          | none => none
          | some out => some out
        else some results

/-! ## Concrete fixtures for counterexamples and witnesses -/

/-- Simple concrete stand-ins for the scipy kernels: effect 0, p-value the
first volume (enough to expose data dependence at concrete inputs). -/
def K0 : StatKernels where
  pearsonr := fun _ y => some (Frac.ofInt 0, y.headD Frac.one)
  spearmanr := fun _ y => some (Frac.ofInt 0, y.headD Frac.one)
  ttest_ind := fun g1 _ => some (Frac.ofInt 0, g1.headD Frac.one)
  f_oneway := fun gs => some (Frac.ofInt 0, (gs.headD []).headD Frac.one)

/-- The all-zero noise draw. -/
def noise0 : String → Nat → Frac := fun _ _ => Frac.ofInt 0

/-- The all-one noise draw. -/
def noise1 : String → Nat → Frac := fun _ _ => Frac.ofInt 1

/-- A numeric feature table: two users, one integer column `age` with the
two distinct values 0 and 1. -/
def udfNum : FeatureTable where
  index := ["u1", "u2"]
  columns := ["age"]
  dtypeOf := fun _ => Dtype.integer
  data := fun r _ => if r = "u1" then Frac.ofInt 0 else Frac.ofInt 1

/-- A categorical feature table: three users, one object-dtype column
`group` with three distinct values. -/
def udfCat : FeatureTable where
  index := ["u1", "u2", "u3"]
  columns := ["group"]
  dtypeOf := fun _ => Dtype.obj
  data := fun r _ => if r = "u1" then Frac.ofInt 0 else if r = "u2" then Frac.ofInt 1 else Frac.ofInt 2

/-- A volume table with a single region `regionA`, every volume 5. -/
def bdf0 : DataFrame where
  index := ["u1", "u2", "u3"]
  columns := ["regionA"]
  data := fun _ _ => Frac.ofInt 5

/-! ## Analysis history store and controller (`app.py`) -/

/-- Status constant of `app.py`. -/
def NOT_STARTED : String := "not_started"

/-- Status constant of `app.py`. -/
def RUNNING : String := "running"

/-- Status constant of `app.py`. -/
def FAILED : String := "failed"

/-- Status constant of `app.py`. -/
def COMPLETED : String := "completed"

/-- The pickled analysis record (`analysis_data` in
`save_analysis_to_history`), modelled as a dict whose keys may be absent
(`none`).  A `results`/`timestamp_ended` key stored with Python value
`None` is collapsed with key-absence: `load_previous_analysis` reads both
through `.get(key, None)`, so the two are indistinguishable to every
consumer in the source. -/
structure AnalysisRecord where
  name : Option String
  timestamp : Option String
  selected_users : Option (List String)
  selected_feature : Option String
  selected_statistical : Option String
  apply_fdr : Option Bool
  results : Option (List (String × RegionResult))
  status_run : Option String
  timestamp_ended : Option String
  deriving DecidableEq

/-- The Python `{}` that `save_analysis_results` falls back to when the
pickle file is missing. -/
def emptyAnalysisDict : AnalysisRecord :=
  ⟨none, none, none, none, none, none, none, none, none⟩

/-- Writing a pickle file under a file name: overwrite the record if the
name exists, else add it. -/
def storeInsert {α : Type} (l : List (String × α)) (k : String) (v : α) : List (String × α) :=
  if l.any (fun e => e.1 = k) then
    l.map (fun e => if e.1 = k then (k, v) else e)
  else l ++ [(k, v)]

/-- Reading the pickle file stored under a file name, if any. -/
def storeLookup {α : Type} (l : List (String × α)) (k : String) : Option α :=
  (l.find? (fun e => e.1 = k)).map (fun e => e.2)

/-- The history slice of the dashboard's state: the display-label list and
file-name list (`self.analyses_history[0]` and `[1]`) and the on-disk
pickle files of `ANALYSES_DIR`. -/
structure HistoryState where
  labels : List String
  files : List String
  store : List (String × AnalysisRecord)
  deriving DecidableEq

/-- The status glyph used in history labels. -/
def statusGlyph (status : String) : String :=
  if status = COMPLETED then "✓"
  else if status = RUNNING then "▶"
  else if status = FAILED then "✗"
  else "○"

/-- Embedding of `save_analysis_to_history` from `app.py` (the history store's begin):
builds the record with status `running`, appends a new `▶`-labelled history
entry when the file name is new and otherwise relabels the existing entry
in place, and writes the pickle file.  `analysis_results` is the value of
`self.analysis_results` at begin time (`None` initially); the rebuild of
the selector's options dict is a derived view and not part of the state. -/
def save_analysis_to_history (st : HistoryState)
    (analysis_results : Option (List (String × RegionResult)))
    (apply_fdr : Bool) (analysis_name filename timestamp : String)
    (selected_users : List String) (selected_feature analysis_statistical : String) :
    HistoryState :=
  let analysis_data : AnalysisRecord :=
    { name := some analysis_name
      timestamp := some timestamp
      selected_users := some selected_users
      selected_feature := some selected_feature
      selected_statistical := some analysis_statistical
      apply_fdr := some apply_fdr
      results := analysis_results
      status_run := some RUNNING
      timestamp_ended := none }
  if !(st.files.contains filename) then
    { labels := st.labels ++ ["▶ " ++ analysis_name]
      files := st.files ++ [filename]
      store := storeInsert st.store filename analysis_data }
  else
    { labels := st.labels.set (st.files.indexOf filename) ("▶ " ++ analysis_name)
      files := st.files
      store := storeInsert st.store filename analysis_data }

/-- Embedding of `update_pickle_result_file` from `app.py`: merge results, status and an
end timestamp into the loaded record (the rewrite to disk is the
`storeInsert` done by the caller's model). -/
def update_pickle_result_file (selected_analysis : AnalysisRecord)
    (results : List (String × RegionResult)) (status : String) (now : String) :
    AnalysisRecord :=
  { selected_analysis with
      results := some results
      status_run := some status
      timestamp_ended := some now }

/-- Embedding of `update_status_history_analysis_list` from `app.py`: relabel the history
entry for the file name (if present) with the new status glyph and the
record's name. -/
def update_status_history_analysis_list (st : HistoryState) (filename : String)
    (selected_analysis : AnalysisRecord) (status : String) : List String :=
  if st.files.contains filename then
    st.labels.set (st.files.indexOf filename)
      (statusGlyph status ++ " " ++ selected_analysis.name.getD "Unknown")
  else st.labels

/-- Embedding of `save_analysis_results` from `app.py` (the history store's complete):
read the record back (falling back to `{}` when the pickle is missing),
merge results/status/end-timestamp, rewrite the file, and update the
history-label list.  The flattened `.txt` rendering and the separate
`AnalysisResult` database row are write-only side outputs with no reader in
the dashboard and are not part of the modelled state. -/
def save_analysis_results (st : HistoryState) (filename : String)
    (results : List (String × RegionResult)) (status : String) (now : String) :
    HistoryState :=
  let selected_analysis :=
    match storeLookup st.store filename with
    | some rec => rec
    | none => emptyAnalysisDict
  let updated := update_pickle_result_file selected_analysis results status now
  { labels := update_status_history_analysis_list st filename updated status
    files := st.files
    store := storeInsert st.store filename updated }

/-- The live UI slice that `load_previous_analysis` restores. -/
structure UIState where
  analysis_name : String
  current_analysis_name : String
  selected_users : List String
  selected_feature : String
  selected_statistical : String
  apply_fdr : Bool
  analysis_results : Option (List (String × RegionResult))
  analysis_status : String
  deriving DecidableEq

/-- Embedding of `load_previous_analysis` from `app.py`: deserialize the record stored
under the selected file name and transplant its fields into the live UI
state through the source's `.get` defaults.  No statistical computation is
invoked anywhere in its body.  `none` models the `FileNotFoundError` when
no such record file exists (unreachable through the selector, whose options
list only stored files). -/
def load_previous_analysis (store : List (String × AnalysisRecord)) (filename : String) :
    Option UIState :=
  match storeLookup store filename with
  | none => none
  | some rec => some
      { analysis_name := rec.name.getD ""
        current_analysis_name := rec.name.getD ""
        selected_users := rec.selected_users.getD []
        selected_feature := rec.selected_feature.getD ""
        selected_statistical := rec.selected_statistical.getD PEARSON_TEST
        apply_fdr := rec.apply_fdr.getD true
        analysis_results := rec.results
        analysis_status := rec.status_run.getD NOT_STARTED }

/-- How the idle-to-running transition of `run_analysis` (`app.py`) leaves
the validation phase. -/
inductive RunOutcome where
  /-- An early `return` after an error notification: user-visible rejection,
  no state change. -/
  | rejected (msg : String)
  /-- An exception escapes `run_analysis` before any notification or state
  change (the `asyncio` task swallows it; nothing is shown). -/
  | uncaughtException
  /-- Validation passed; the controller goes on to write the running record
  and dispatch the computation. -/
  | proceeds
  deriving DecidableEq

/-- The validation phase of `run_analysis` from `app.py` (lines 294-330),
in source order: empty cohort check; the
`users_df.loc[analysis_users, analysis_feature]` access (which raises
`KeyError` for a missing — in particular empty — feature name);
`is_valid_test`; empty-name check; empty-feature check; empty-test check.
Everything before the first state mutation (`save_analysis_to_history`) is
covered, so `rejected`/`uncaughtException` imply no record is written, the
status is unchanged and nothing is dispatched. -/
def run_analysis_validate (user_selector_value : List String) (selected_name : String)
    (analysis_feature analysis_statistical : String) (users_df : FeatureTable) :
    RunOutcome :=
  if user_selector_value.isEmpty then
    RunOutcome.rejected "Please select users for analysis"
  else
    match users_df.locSeries user_selector_value analysis_feature with
    | none => RunOutcome.uncaughtException
    | some values_features_selected_user =>
      if !(is_valid_test values_features_selected_user analysis_statistical) then
        RunOutcome.rejected "Statistical test is not valid for feature"
      else if selected_name = "" then
        RunOutcome.rejected "Please provide a name for the analysis"
      else if analysis_feature = "" then
        RunOutcome.rejected "Please select a feature for analysis"
      else if analysis_statistical = "" then
        RunOutcome.rejected "Please select a statistical test for analysis"
      else RunOutcome.proceeds

/-! ## Region-volume loading (`data_loaders.py`) -/

/-- A CSV source file on disk: absent, present but zero-size, or present
with parseable content (row labels and column names). -/
inductive FSFile where
  | absent
  | empty
  | content (rows : List String) (cols : List String)
  deriving DecidableEq

/-- A loaded volume table: row labels and column names. -/
structure VolTable where
  rows : List String
  cols : List String
  deriving DecidableEq

/-- The empty DataFrame `pd.DataFrame(columns=['file_name']).set_index('file_name')`. -/
def emptyVolTable : VolTable := ⟨[], []⟩

/-- Model of `os.path.exists(file_path)`. -/
def os_path_exists : FSFile → Bool
  | FSFile.absent => false
  | _ => true

/-- Model of `os.path.getsize(file_path) > 0`. -/
def os_path_getsize_pos : FSFile → Bool
  | FSFile.content _ _ => true
  | _ => false

/-- Model of `pd.read_csv(file_path).set_index(index_col)`: parse the file and move
the index column out of the columns.  `none` models the exception raised on
a missing file, on an empty one (`EmptyDataError`), or by `set_index` when
the parsed columns lack the index column (`KeyError`). -/
def pd_read_csv_set_index (f : FSFile) (index_col : String) : Option VolTable :=
  match f with
  | FSFile.content rows cols =>
    if cols.contains index_col then some ⟨rows, cols.erase index_col⟩ else none
  | _ => none

/-- Well-formedness of a source file with respect to its index column: a
file with content carries the column the loader will `set_index` on (as
every FreeSurfer-produced table does).  Absent and empty files are
trivially well formed — `safe_read` never parses them. -/
def hasIndexCol (f : FSFile) (index_col : String) : Bool :=
  match f with
  | FSFile.content _ cols => cols.contains index_col
  | _ => true

/-- Embedding of `safe_read` from `load_brain_volumes_data`: only read a file that
exists and has positive size; otherwise substitute the empty table indexed
by file name.  `none` would model an escaped exception. -/
def safe_read (f : FSFile) (index_col : String) : Option VolTable :=
  if os_path_exists f && os_path_getsize_pos f then
    pd_read_csv_set_index f index_col
  else some emptyVolTable

/-- Distinct strings in order of first appearance (the column dedup
`df.loc[:, ~df.columns.duplicated()]`, which keeps first occurrences). -/
def dedupFirstStrAux (seen : List String) : List String → List String
  | [] => []
  | x :: xs =>
    if x ∈ seen then dedupFirstStrAux seen xs else x :: dedupFirstStrAux (x :: seen) xs

/-- Distinct strings in order of first appearance. -/
def dedupFirstStr (xs : List String) : List String := dedupFirstStrAux [] xs

/-- Row-label union in order of first appearance (the outer index alignment
of `pd.concat(..., axis=1)`). -/
def rowUnion (a b : List String) : List String :=
  a ++ b.filter (fun x => !(a.contains x))

/-- Embedding of `load_brain_volumes_data` from `data_loaders.py`: `safe_read` the three
FreeSurfer tables, concatenate them column-wise and drop duplicated column
names keeping the first occurrence. -/
def load_brain_volumes_data (aseg aparc_lh aparc_rh : FSFile) : Option VolTable :=
  match safe_read aseg "Measure:volume", safe_read aparc_lh "lh.aparc.area",
      safe_read aparc_rh "rh.aparc.area" with
  | some daseg_df, some aparc_lh_df, some aparc_rh_df =>
    some ⟨rowUnion (rowUnion daseg_df.rows aparc_lh_df.rows) aparc_rh_df.rows,
          dedupFirstStr (daseg_df.cols ++ aparc_lh_df.cols ++ aparc_rh_df.cols)⟩
  | _, _, _ => none

/-! ## Folder watcher (`scripts/watch_folder.py`) -/

/-- A row of the `User` table. -/
structure User where
  user_id : String
  file_name : String
  status : String
  deriving DecidableEq

/-- Embedding of `Command.process_file` from `watch_folder.py`: skip dotfiles, skip file
names that already have a `User` row, and otherwise append a row with the
file name, the name without its extension as `user_id`, and status
`preprocessed`. -/
def process_file (file_path : String) (table : List User) : List User :=
  let filename := pyBasename file_path
  if startsWithDot filename then table
  else if table.any (fun u => u.file_name = filename) then table
  else
    let sample_name := pySplitextRoot filename
    table ++ [{ user_id := sample_name, file_name := filename, status := "preprocessed" }]

/-- The "silent hole" of the per-region loop: a continuous feature with a
test that is neither correlation test leaves the loop body without storing
anything for the region. -/
def contHole (xs : Series) (test : String) : Prop :=
  (check_continues_variable xs).1 = true ∧ test ≠ PEARSON_TEST ∧ test ≠ SPEARMAN_TEST

/-- The shape of a region entry the claim calls neutral: `p` is `1.0` and
no effect-size key (`r`, `t`, `f`) is present. -/
def neutralVal (e : String × RegionResult) : Prop :=
  e.2.p = some Frac.one ∧ e.2.r = none ∧ e.2.t = none ∧ e.2.f = none

/-! ## C1 -/

/-- C1, counterexample: `is_valid_test` lowercases the test name first, so
the uppercase name `"PEARSON"` is accepted on a numeric feature, while the
claim as stated ("returns false for any other test name") requires false. -/
theorem C1_counterexample :
    is_valid_test ⟨[Frac.ofInt 0, Frac.ofInt 1], Dtype.integer⟩ "PEARSON" = true
      ∧ claimValidLiteral ⟨[Frac.ofInt 0, Frac.ofInt 1], Dtype.integer⟩ "PEARSON" = false := by
  decide

/-- C1, amended: for every feature-value series `x` and test name `t`,
`is_valid_test(x, t)` returns true exactly when, after lowercasing `t`:
`t` is `pearson` or `spearman` and `x` is numeric; `t` is `t-test` and `x`
has exactly 2 distinct values; `t` is `anova` and `x` has at least 3
distinct values and is not numeric; and false for any other test name. -/
theorem C1_is_valid_test_amended (x : Series) (t : String) :
    is_valid_test x t = claimValidCI x t := by
  unfold is_valid_test claimValidCI claimValidLiteral PEARSON_TEST SPEARMAN_TEST T_TEST ANOVA_TEST
  by_cases h1 : pyLower t = "pearson" <;>
    by_cases h2 : pyLower t = "spearman" <;>
      by_cases h3 : pyLower t = "t-test" <;>
        by_cases h4 : pyLower t = "anova" <;>
          simp_all

/-! ## Lemmas about the runner's building blocks -/

theorem mem_keys_dictInsert_self (l : List (String × RegionResult)) (k : String)
    (v : RegionResult) : k ∈ (dictInsert l k v).map Prod.fst := by
  unfold dictInsert
  split
  · rename_i h
    rcases List.any_eq_true.mp h with ⟨e, he, hek⟩
    refine List.mem_map.mpr ⟨(k, v), List.mem_map.mpr ⟨e, he, ?_⟩, rfl⟩
    simp [of_decide_eq_true hek]
  · simp

theorem mem_keys_dictInsert_of_mem (l : List (String × RegionResult)) (k k' : String)
    (v : RegionResult) (h : k' ∈ l.map Prod.fst) : k' ∈ (dictInsert l k v).map Prod.fst := by
  unfold dictInsert
  rcases List.mem_map.mp h with ⟨e, he, hek⟩
  split
  · refine List.mem_map.mpr ?_
    by_cases hk : e.1 = k
    · exact ⟨(k, v), List.mem_map.mpr ⟨e, he, by simp [hk]⟩, by simp [← hek, hk]⟩
    · exact ⟨e, List.mem_map.mpr ⟨e, he, by simp [hk]⟩, hek⟩
  · exact List.mem_map.mpr ⟨e, List.mem_append_left _ he, hek⟩

theorem mem_zipWith {α β γ : Type} (f : α → β → γ) (l1 : List α) (l2 : List β) (c : γ)
    (h : c ∈ List.zipWith f l1 l2) : ∃ a b, a ∈ l1 ∧ b ∈ l2 ∧ c = f a b := by
  induction l1 generalizing l2 with
  | nil => simp at h
  | cons a as ih =>
    cases l2 with
    | nil => simp at h
    | cons b bs =>
      rcases List.mem_cons.mp h with h | h
      · exact ⟨a, b, List.mem_cons_self .., List.mem_cons_self .., h⟩
      · rcases ih bs h with ⟨a', b', ha, hb, hc⟩
        exact ⟨a', b', List.mem_cons_of_mem _ ha, List.mem_cons_of_mem _ hb, hc⟩

theorem map_fst_zipWith_pair (rs : List (String × RegionResult)) (ps : List (Bool × Frac))
    (hlen : rs.length ≤ ps.length) :
    (List.zipWith
      (fun (e : String × RegionResult) (ra : Bool × Frac) =>
        (e.1, { e.2 with p_adjusted := some ra.2, significant := some ra.1 }))
      rs ps).map Prod.fst = rs.map Prod.fst := by
  induction rs generalizing ps with
  | nil => simp
  | cons e es ih =>
    cases ps with
    | nil => simp at hlen
    | cons p ps' =>
      simp only [List.zipWith_cons_cons, List.map_cons]
      exact congrArg _ (ih ps' (Nat.le_of_succ_le_succ hlen))

theorem length_insertByKey {α : Type} (key : α → Frac) (x : α) (l : List α) :
    (insertByKey key x l).length = l.length + 1 := by
  induction l with
  | nil => rfl
  | cons y ys ih =>
    unfold insertByKey
    split
    · rfl
    · simp [ih]

theorem length_sortByKey {α : Type} (key : α → Frac) (l : List α) :
    (sortByKey key l).length = l.length := by
  induction l with
  | nil => rfl
  | cons x xs ih => simp [sortByKey, length_insertByKey, ih]

theorem length_fillReject (l : List Bool) : (fillReject l).length = l.length := by
  induction l with
  | nil => rfl
  | cons b bs ih => simp [fillReject, ih]

theorem length_cumMinFromEnd (l : List Frac) : (cumMinFromEnd l).length = l.length := by
  induction l with
  | nil => rfl
  | cons q qs ih => simp [cumMinFromEnd, ih]

theorem length_multipletests (ps : List Frac) (mt : List Bool × List Frac)
    (h : multipletests_fdr_bh ps = some mt) :
    mt.1.length = ps.length ∧ mt.2.length = ps.length := by
  unfold multipletests_fdr_bh at h
  split at h
  · simp at h
  · cases (Option.some.injEq ..).mp h
    simp [length_sortByKey, length_fillReject, length_cumMinFromEnd, List.length_zip]

theorem map_fst_applyFdrStep (rs out : List (String × RegionResult))
    (h : applyFdrStep rs = some out) : out.map Prod.fst = rs.map Prod.fst := by
  unfold applyFdrStep at h
  cases hmt : multipletests_fdr_bh (rs.map (fun e => e.2.getP)) with
  | none => rw [hmt] at h; simp at h
  | some mt =>
    rw [hmt] at h
    dsimp only at h
    cases (Option.some.injEq ..).mp h
    refine map_fst_zipWith_pair _ _ ?_
    have hl := length_multipletests _ _ hmt
    simp [List.length_zip, hl.1, hl.2]

theorem processRegion_hole (K : StatKernels) (xs : Series) (test region : String)
    (nvols : List Frac) (acc : List (String × RegionResult)) (h : contHole xs test) :
    processRegion K xs test region nvols acc = some acc := by
  rcases h with ⟨hc, hp, hs⟩
  unfold processRegion
  simp [hc, hp, hs]

theorem processRegion_keys (K : StatKernels) (xs : Series) (test region : String)
    (nvols : List Frac) (acc acc' : List (String × RegionResult))
    (h : processRegion K xs test region nvols acc = some acc') :
    acc' = acc ∨ ∃ v, acc' = dictInsert acc region v := by
  unfold processRegion at h
  split at h
  · split at h
    · split at h
      · exact absurd h (by simp)
      · exact Or.inr ⟨_, (Option.some.injEq ..).mp h.symm⟩
    · split at h
      · split at h
        · exact absurd h (by simp)
        · exact Or.inr ⟨_, (Option.some.injEq ..).mp h.symm⟩
      · exact Or.inl (Option.some.injEq .. |>.mp h.symm)
  · split at h
    · split at h
      · exact absurd h (by simp)
      · exact Or.inr ⟨_, (Option.some.injEq ..).mp h.symm⟩
    · split at h
      · split at h
        · exact absurd h (by simp)
        · exact Or.inr ⟨_, (Option.some.injEq ..).mp h.symm⟩
      · exact Or.inr ⟨_, (Option.some.injEq ..).mp h.symm⟩

theorem processRegion_nonhole (K : StatKernels) (xs : Series) (test region : String)
    (nvols : List Frac) (acc acc' : List (String × RegionResult))
    (hnh : ¬ contHole xs test)
    (h : processRegion K xs test region nvols acc = some acc') :
    ∃ v, acc' = dictInsert acc region v := by
  unfold processRegion at h
  unfold contHole at hnh
  split at h
  · rename_i hc
    push_neg at hnh
    rcases Decidable.em (test = PEARSON_TEST) with hp | hp
    · rw [if_pos hp] at h
      cases hk : K.pearsonr xs.values nvols with
      | none => rw [hk] at h; exact absurd h (by simp)
      | some rp => rw [hk] at h; exact ⟨_, (Option.some.injEq ..).mp h.symm⟩
    · have hs := hnh hc hp
      rw [if_neg hp, if_pos hs] at h
      cases hk : K.spearmanr xs.values nvols with
      | none => rw [hk] at h; exact absurd h (by simp)
      | some rp => rw [hk] at h; exact ⟨_, (Option.some.injEq ..).mp h.symm⟩
  · split at h
    · split at h
      · exact absurd h (by simp)
      · exact ⟨_, (Option.some.injEq ..).mp h.symm⟩
    · split at h
      · split at h
        · exact absurd h (by simp)
        · exact ⟨_, (Option.some.injEq ..).mp h.symm⟩
      · exact ⟨_, (Option.some.injEq ..).mp h.symm⟩

theorem regionLoop_keys_mono (K : StatKernels) (noise : String → Nat → Frac) (xs : Series)
    (users : List String) (bdf : DataFrame) (test : String) (cols : List String)
    (acc acc' : List (String × RegionResult))
    (h : regionLoop K noise xs users bdf test cols acc = some acc')
    (k : String) (hk : k ∈ acc.map Prod.fst) : k ∈ acc'.map Prod.fst := by
  induction cols generalizing acc with
  | nil =>
    unfold regionLoop at h
    cases (Option.some.injEq ..).mp h
    exact hk
  | cons c rest ih =>
    unfold regionLoop at h
    cases hl : bdf.locCol users c with
    | none => rw [hl] at h; exact absurd h (by simp)
    | some vols =>
      rw [hl] at h
      dsimp only at h
      cases hp : processRegion K xs test c (addNoise vols (noise c)) acc with
      | none => rw [hp] at h; exact absurd h (by simp)
      | some acc₂ =>
        rw [hp] at h
        refine ih acc₂ h ?_
        rcases processRegion_keys _ _ _ _ _ _ _ hp with he | ⟨v, he⟩
        · exact he ▸ hk
        · exact he ▸ mem_keys_dictInsert_of_mem _ _ _ _ hk

theorem regionLoop_covers (K : StatKernels) (noise : String → Nat → Frac) (xs : Series)
    (users : List String) (bdf : DataFrame) (test : String) (cols : List String)
    (acc acc' : List (String × RegionResult)) (hnh : ¬ contHole xs test)
    (h : regionLoop K noise xs users bdf test cols acc = some acc')
    (c : String) (hc : c ∈ cols) : c ∈ acc'.map Prod.fst := by
  induction cols generalizing acc with
  | nil => simp at hc
  | cons c₀ rest ih =>
    unfold regionLoop at h
    cases hl : bdf.locCol users c₀ with
    | none => rw [hl] at h; exact absurd h (by simp)
    | some vols =>
      rw [hl] at h
      dsimp only at h
      cases hp : processRegion K xs test c₀ (addNoise vols (noise c₀)) acc with
      | none => rw [hp] at h; exact absurd h (by simp)
      | some acc₂ =>
        rw [hp] at h
        rcases List.mem_cons.mp hc with hc0 | hcr
        · subst hc0
          rcases processRegion_nonhole _ _ _ _ _ _ _ hnh hp with ⟨v, he⟩
          exact regionLoop_keys_mono _ _ _ _ _ _ _ _ _ h c
            (he ▸ mem_keys_dictInsert_self ..)
        · exact ih acc₂ h hcr

theorem regionLoop_hole (K : StatKernels) (noise : String → Nat → Frac) (xs : Series)
    (users : List String) (bdf : DataFrame) (test : String) (cols : List String)
    (acc acc' : List (String × RegionResult)) (hh : contHole xs test)
    (h : regionLoop K noise xs users bdf test cols acc = some acc') : acc' = acc := by
  induction cols generalizing acc with
  | nil =>
    unfold regionLoop at h
    exact ((Option.some.injEq ..).mp h).symm
  | cons c rest ih =>
    unfold regionLoop at h
    cases hl : bdf.locCol users c with
    | none => rw [hl] at h; exact absurd h (by simp)
    | some vols =>
      rw [hl] at h
      dsimp only at h
      rw [processRegion_hole _ _ _ _ _ _ hh] at h
      exact ih acc h

/-! ## C2 -/

/-- C2, counterexample: on a numeric feature with exactly two distinct
values (which `is_valid_test` accepts for the two-group test) the per-region
loop's continuous branch has no t-test arm, so the runner returns an empty
mapping — neither the failure sentinel `None` nor a mapping covering the
region table's one region. -/
theorem C2_counterexample :
    perform_statistical_analysis K0 noise0 ["u1", "u2"] "age" false udfNum bdf0 "t-test"
        = some []
      ∧ bdf0.columns = ["regionA"]
      ∧ is_valid_test ⟨[Frac.ofInt 0, Frac.ofInt 1], Dtype.integer⟩ "t-test" = true := by
  decide

/-- C2, amended: `perform_statistical_analysis` either returns the failure
sentinel `None`, or a mapping with an entry for every region of the volume
table, or — when the selected feature is numeric and the chosen test is not
`pearson`/`spearman` — a mapping with no entries at all; it never returns a
mapping covering a nonempty proper subset of the regions and never lets an
exception escape. -/
theorem C2_perform_amended (K : StatKernels) (noise : String → Nat → Frac)
    (users : List String) (feat : String) (fdr : Bool) (udf : FeatureTable)
    (bdf : DataFrame) (test : String) :
    perform_statistical_analysis K noise users feat fdr udf bdf test = none
      ∨ (∃ rs, perform_statistical_analysis K noise users feat fdr udf bdf test = some rs
          ∧ ∀ c ∈ bdf.columns, c ∈ rs.map Prod.fst)
      ∨ (perform_statistical_analysis K noise users feat fdr udf bdf test = some []
          ∧ ∃ xs, udf.locSeries users feat = some xs ∧ contHole xs test) := by
  unfold perform_statistical_analysis
  by_cases h1 : feat = ""
  · simp [h1]
  · rw [if_neg h1]
    by_cases h2 : users.isEmpty = true
    · simp [h2]
    · rw [if_neg h2]
      cases hxs : udf.locSeries users feat with
      | none => exact Or.inl rfl
      | some xs =>
        dsimp only
        cases hrl : regionLoop K noise xs users bdf test bdf.columns [] with
        | none => exact Or.inl rfl
        | some results =>
          dsimp only
          by_cases hh : contHole xs test
          · have hres : results = [] := regionLoop_hole _ _ _ _ _ _ _ _ _ hh hrl
            subst hres
            cases fdr with
            | false => exact Or.inr (Or.inr ⟨rfl, xs, rfl, hh⟩)
            | true => exact Or.inl rfl
          · have hcov := fun c hc => regionLoop_covers _ _ _ _ _ _ _ _ _ hh hrl c hc
            cases fdr with
            | false => exact Or.inr (Or.inl ⟨results, rfl, hcov⟩)
            | true =>
              cases hfd : applyFdrStep results with
              | none => refine Or.inl ?_; simp [hfd]
              | some out =>
                refine Or.inr (Or.inl ⟨out, by simp [hfd], ?_⟩)
                intro c hc
                rw [map_fst_applyFdrStep results out hfd]
                exact hcov c hc

/-! ## C3 -/

/-- C3 evidence (code bug): the runner's output is a function of the
`np.random.normal` noise draw of `run_analysis.py` line 103 (marked
`TODO: Remove it in production`), which Python samples freshly on every
call; at a concrete input, two draws give different per-region p-values,
so two identical runs are not deterministic. -/
theorem C3_noise_dependence :
    perform_statistical_analysis K0 noise0 ["u1", "u2"] "age" false udfNum bdf0 "pearson"
      ≠ perform_statistical_analysis K0 noise1 ["u1", "u2"] "age" false udfNum bdf0 "pearson" := by
  decide

/-! ## C4 -/

/-- C4: when `apply_fdr` is set and the analysis succeeds, the result is
exactly the unadjusted per-region results passed through one
`multipletests(..., method='fdr_bh')` call over the full list of
`res.get('p', 1.0)` values (that is `applyFdrStep`), the region keys are
unchanged, and every region's result carries both a `p_adjusted` value and
a `significant` flag. -/
theorem C4_single_fdr_adjustment (K : StatKernels) (noise : String → Nat → Frac)
    (users : List String) (feat : String) (udf : FeatureTable) (bdf : DataFrame)
    (test : String) (rs' : List (String × RegionResult))
    (h : perform_statistical_analysis K noise users feat true udf bdf test = some rs') :
    ∃ rs, perform_statistical_analysis K noise users feat false udf bdf test = some rs
      ∧ applyFdrStep rs = some rs'
      ∧ rs'.map Prod.fst = rs.map Prod.fst
      ∧ ∀ e ∈ rs', e.2.p_adjusted.isSome ∧ e.2.significant.isSome := by
  unfold perform_statistical_analysis at h ⊢
  by_cases h1 : feat = ""
  · rw [if_pos h1] at h
    exact absurd h (by simp)
  · rw [if_neg h1] at h ⊢
    by_cases h2 : users.isEmpty = true
    · rw [if_pos h2] at h
      exact absurd h (by simp)
    · rw [if_neg h2] at h ⊢
      cases hxs : udf.locSeries users feat with
      | none => rw [hxs] at h; simp at h
      | some xs =>
        rw [hxs] at h
        dsimp only at h ⊢
        cases hrl : regionLoop K noise xs users bdf test bdf.columns [] with
        | none => rw [hrl] at h; simp at h
        | some results =>
          rw [hrl] at h
          dsimp only at h ⊢
          rw [if_pos rfl] at h
          cases hfd : applyFdrStep results with
          | none => rw [hfd] at h; simp at h
          | some out =>
            rw [hfd] at h
            dsimp only at h
            have hrs : out = rs' := (Option.some.injEq ..).mp h
            subst hrs
            refine ⟨results, by rw [if_neg (by simp)], hfd,
              map_fst_applyFdrStep results out hfd, ?_⟩
            intro x hx
            unfold applyFdrStep at hfd
            cases hmt : multipletests_fdr_bh (results.map (fun e => e.2.getP)) with
            | none => rw [hmt] at hfd; simp at hfd
            | some mt =>
              rw [hmt] at hfd
              dsimp only at hfd
              cases (Option.some.injEq ..).mp hfd
              rcases mem_zipWith _ _ _ _ hx with ⟨a, b, _, _, hab⟩
              subst hab
              exact ⟨rfl, rfl⟩

/-- C4 witness: a concrete run with FDR enabled satisfying the theorem's
hypothesis, instantiated through the theorem. -/
theorem C4_single_fdr_adjustment_witness :
    (perform_statistical_analysis K0 noise0 ["u1", "u2"] "age" true udfNum bdf0 "pearson"
        = some [("regionA",
            { RegionResult.mkRP (Frac.ofInt 0) ⟨5, 1⟩ with
                p_adjusted := some Frac.one, significant := some false })])
      ∧ (∃ rs, perform_statistical_analysis K0 noise0 ["u1", "u2"] "age" false udfNum bdf0 "pearson"
            = some rs
          ∧ applyFdrStep rs
              = some [("regionA",
                  { RegionResult.mkRP (Frac.ofInt 0) ⟨5, 1⟩ with
                      p_adjusted := some Frac.one, significant := some false })]
          ∧ ([("regionA",
              { RegionResult.mkRP (Frac.ofInt 0) ⟨5, 1⟩ with
                  p_adjusted := some Frac.one, significant := some false })]).map Prod.fst
              = rs.map Prod.fst
          ∧ ∀ e ∈ [("regionA",
              { RegionResult.mkRP (Frac.ofInt 0) ⟨5, 1⟩ with
                  p_adjusted := some Frac.one, significant := some false })],
              e.2.p_adjusted.isSome ∧ e.2.significant.isSome) :=
  ⟨by decide, C4_single_fdr_adjustment K0 noise0 ["u1", "u2"] "age" udfNum bdf0 "pearson" _
    (by decide)⟩

/-! ## C5 -/

theorem mem_dictInsert (l : List (String × RegionResult)) (k : String) (v : RegionResult)
    (e : String × RegionResult) (h : e ∈ dictInsert l k v) : e ∈ l ∨ e = (k, v) := by
  unfold dictInsert at h
  split at h
  · rcases List.mem_map.mp h with ⟨e₀, he₀, hmap⟩
    by_cases hk : e₀.1 = k
    · right
      rw [if_pos hk] at hmap
      exact hmap.symm
    · left
      rw [if_neg hk] at hmap
      exact hmap ▸ he₀
  · rcases List.mem_append.mp h with h' | h'
    · exact Or.inl h'
    · right
      simpa using h'

theorem mem_of_mem_uniqueFirstAux (seen xs : List Frac) (v : Frac)
    (h : v ∈ uniqueFirstAux seen xs) : v ∈ xs := by
  induction xs generalizing seen with
  | nil => simp [uniqueFirstAux] at h
  | cons x xs' ih =>
    unfold uniqueFirstAux at h
    split at h
    · exact List.mem_cons_of_mem _ (ih _ h)
    · rcases List.mem_cons.mp h with h' | h'
      · exact h' ▸ List.mem_cons_self ..
      · exact List.mem_cons_of_mem _ (ih _ h')

theorem zip_filter_pos (xs ys : List Frac) (v : Frac) (hv : v ∈ xs)
    (hlen : xs.length ≤ ys.length) :
    0 < ((xs.zip ys).filter (fun q => q.1 = v)).length := by
  induction xs generalizing ys with
  | nil => simp at hv
  | cons x xs' ih =>
    cases ys with
    | nil => simp at hlen
    | cons y ys' =>
      rcases List.mem_cons.mp hv with h' | h'
      · subst h'
        simp [List.filter]
      · have := ih ys' h' (Nat.le_of_succ_le_succ hlen)
        by_cases hx : x = v
        · simp [List.filter, hx]
        · simpa [List.filter, hx] using this

theorem groupsOf_length (xs ys : List Frac) (hlen : xs.length ≤ ys.length) :
    (groupsOf xs ys).length = (uniqueFirst xs).length := by
  unfold groupsOf
  have hmem : ∀ v ∈ uniqueFirst xs, v ∈ xs := fun v hv => mem_of_mem_uniqueFirstAux _ _ _ hv
  generalize uniqueFirst xs = l at hmem ⊢
  induction l with
  | nil => rfl
  | cons v l' ih =>
    have hv : v ∈ xs := hmem v (List.mem_cons_self ..)
    have hlt := zip_filter_pos xs ys v hv hlen
    simp only [List.foldr_cons]
    rw [if_pos (by simpa using hlt)]
    simpa using ih (fun w hw => hmem w (List.mem_cons_of_mem _ hw))

theorem addNoise_length (vols : List Frac) (noise : Nat → Frac) :
    (addNoise vols noise).length = vols.length := by
  simp [addNoise]

theorem locCol_length (df : DataFrame) (rows : List String) (col : String) (vols : List Frac)
    (h : df.locCol rows col = some vols) : vols.length = rows.length := by
  unfold DataFrame.locCol at h
  split at h
  · cases (Option.some.injEq ..).mp h
    simp
  · simp at h

theorem locSeries_values_length (df : FeatureTable) (rows : List String) (col : String)
    (xs : Series) (h : df.locSeries rows col = some xs) : xs.values.length = rows.length := by
  unfold FeatureTable.locSeries at h
  split at h
  · cases (Option.some.injEq ..).mp h
    simp
  · simp at h

theorem processRegion_neutral (K : StatKernels) (xs : Series) (test region : String)
    (nvols : List Frac) (acc : List (String × RegionResult))
    (hc : (check_continues_variable xs).1 = false)
    (hlen : xs.values.length ≤ nvols.length)
    (h2 : ¬((uniqueFirst xs.values).length = 2 ∧ test = T_TEST))
    (h3 : ¬(2 < (uniqueFirst xs.values).length ∧ test = ANOVA_TEST)) :
    processRegion K xs test region nvols acc
      = some (dictInsert acc region RegionResult.neutral) := by
  unfold processRegion
  rw [if_neg (by simp [hc])]
  have hg := groupsOf_length xs.values nvols hlen
  rw [if_neg (by rw [hg]; exact h2), if_neg (by rw [hg]; exact h3)]

theorem regionLoop_neutral (K : StatKernels) (noise : String → Nat → Frac) (xs : Series)
    (users : List String) (bdf : DataFrame) (test : String) (cols : List String)
    (acc acc' : List (String × RegionResult))
    (hc : (check_continues_variable xs).1 = false)
    (hxlen : xs.values.length = users.length)
    (h2 : ¬((uniqueFirst xs.values).length = 2 ∧ test = T_TEST))
    (h3 : ¬(2 < (uniqueFirst xs.values).length ∧ test = ANOVA_TEST))
    (h : regionLoop K noise xs users bdf test cols acc = some acc')
    (hacc : ∀ e ∈ acc, neutralVal e) : ∀ e ∈ acc', neutralVal e := by
  induction cols generalizing acc with
  | nil =>
    unfold regionLoop at h
    cases (Option.some.injEq ..).mp h
    exact hacc
  | cons c rest ih =>
    unfold regionLoop at h
    cases hl : bdf.locCol users c with
    | none => rw [hl] at h; simp at h
    | some vols =>
      rw [hl] at h
      dsimp only at h
      have hlen : xs.values.length ≤ (addNoise vols (noise c)).length := by
        rw [addNoise_length, locCol_length _ _ _ _ hl, hxlen]
      rw [processRegion_neutral K xs test c _ acc hc hlen h2 h3] at h
      dsimp only at h
      refine ih _ h ?_
      intro e he
      rcases mem_dictInsert _ _ _ _ he with he' | he'
      · exact hacc e he'
      · subst he'
        exact ⟨rfl, rfl, rfl, rfl⟩

theorem applyFdrStep_neutral (rs out : List (String × RegionResult))
    (hout : applyFdrStep rs = some out)
    (h : ∀ e ∈ rs, neutralVal e) : ∀ x ∈ out, neutralVal x := by
  intro x hx
  unfold applyFdrStep at hout
  cases hmt : multipletests_fdr_bh (rs.map (fun e => e.2.getP)) with
  | none => rw [hmt] at hout; simp at hout
  | some mt =>
    rw [hmt] at hout
    dsimp only at hout
    cases (Option.some.injEq ..).mp hout
    rcases mem_zipWith _ _ _ _ hx with ⟨a, b, ha, _, hab⟩
    subst hab
    rcases h a ha with ⟨hp, hr, ht, hf⟩
    exact ⟨hp, hr, ht, hf⟩

/-- C5, counterexample: with a numeric two-valued feature, the t-test — a
combination `is_valid_test` accepts — and no FDR correction, the single
region `regionA` of the volume table receives no entry at all,
contradicting the claim that every region of the input table receives some
entry.  (With FDR enabled the same input fails outright: `multipletests`
raises on the empty p-value list and the runner returns `None` — equally
not the claimed complete mapping.) -/
theorem C5_counterexample :
    perform_statistical_analysis K0 noise0 ["u1", "u2"] "age" false udfNum bdf0 "t-test"
        = some []
      ∧ "regionA" ∈ bdf0.columns := by
  decide

/-- C5, amended: when the cohort's feature values are non-numeric
(categorical) and the chosen test's group structure is not satisfied
(neither exactly-2 groups with the t-test nor more-than-2 groups with
anova), every region of the volume table receives an entry and every stored
entry is the neutral result `p = 1.0` with no effect-size key.  (When the
feature is numeric and the test is not a correlation test, regions receive
no entry at all — the part of the original claim forced out by the
counterexample.) -/
theorem C5_neutral_amended (K : StatKernels) (noise : String → Nat → Frac)
    (users : List String) (feat : String) (fdr : Bool) (udf : FeatureTable)
    (bdf : DataFrame) (test : String) (xs : Series) (rs : List (String × RegionResult))
    (hxs : udf.locSeries users feat = some xs)
    (hc : (check_continues_variable xs).1 = false)
    (h2 : ¬((uniqueFirst xs.values).length = 2 ∧ test = T_TEST))
    (h3 : ¬(2 < (uniqueFirst xs.values).length ∧ test = ANOVA_TEST))
    (h : perform_statistical_analysis K noise users feat fdr udf bdf test = some rs) :
    (∀ c ∈ bdf.columns, c ∈ rs.map Prod.fst) ∧ ∀ e ∈ rs, neutralVal e := by
  unfold perform_statistical_analysis at h
  by_cases hf1 : feat = ""
  · rw [if_pos hf1] at h
    simp at h
  · rw [if_neg hf1] at h
    by_cases hf2 : users.isEmpty = true
    · rw [if_pos hf2] at h
      simp at h
    · rw [if_neg hf2] at h
      rw [hxs] at h
      dsimp only at h
      cases hrl : regionLoop K noise xs users bdf test bdf.columns [] with
      | none => rw [hrl] at h; simp at h
      | some results =>
        rw [hrl] at h
        dsimp only at h
        have hnh : ¬ contHole xs test := by
          intro hcontra
          rw [hcontra.1] at hc
          exact Bool.true_eq_false ▸ hc
        have hxlen := locSeries_values_length _ _ _ _ hxs
        have hneu : ∀ e ∈ results, neutralVal e :=
          regionLoop_neutral K noise xs users bdf test bdf.columns [] results
            hc hxlen h2 h3 hrl (by intro e he; simp at he)
        have hcov : ∀ c ∈ bdf.columns, c ∈ results.map Prod.fst :=
          fun c hcm => regionLoop_covers _ _ _ _ _ _ _ _ _ hnh hrl c hcm
        cases fdr with
        | false =>
          rw [if_neg (by simp)] at h
          have hrs : results = rs := (Option.some.injEq ..).mp h
          subst hrs
          exact ⟨hcov, hneu⟩
        | true =>
          rw [if_pos rfl] at h
          cases hfd : applyFdrStep results with
          | none => rw [hfd] at h; simp at h
          | some out =>
            rw [hfd] at h
            dsimp only at h
            have hrs : out = rs := (Option.some.injEq ..).mp h
            subst hrs
            refine ⟨?_, applyFdrStep_neutral results out hfd hneu⟩
            intro c hcm
            rw [map_fst_applyFdrStep results out hfd]
            exact hcov c hcm

/-- C5 witness: a categorical three-valued feature with the two-group test
(group structure unsatisfied) on the one-region volume table, instantiated
through the amended theorem. -/
theorem C5_neutral_amended_witness :
    (udfCat.locSeries ["u1", "u2", "u3"] "group"
        = some ⟨[Frac.ofInt 0, Frac.ofInt 1, Frac.ofInt 2], Dtype.obj⟩)
      ∧ (perform_statistical_analysis K0 noise0 ["u1", "u2", "u3"] "group" false udfCat bdf0
          "t-test" = some [("regionA", RegionResult.neutral)])
      ∧ (∀ c ∈ bdf0.columns, c ∈ ([("regionA", RegionResult.neutral)]).map Prod.fst)
      ∧ (∀ e ∈ [("regionA", RegionResult.neutral)], neutralVal e) := by
  refine ⟨by decide, by decide, ?_⟩
  have := C5_neutral_amended K0 noise0 ["u1", "u2", "u3"] "group" false udfCat bdf0 "t-test"
    ⟨[Frac.ofInt 0, Frac.ofInt 1, Frac.ofInt 2], Dtype.obj⟩ [("regionA", RegionResult.neutral)]
    (by decide) (by decide) (by decide) (by decide) (by decide)
  exact this

/-! ## C6 and C7 -/

theorem find_after_overwrite {α : Type} (l : List (String × α)) (k : String) (v : α)
    (h : l.any (fun e => e.1 = k) = true) :
    (l.map (fun e => if e.1 = k then (k, v) else e)).find? (fun e => e.1 = k) = some (k, v) := by
  induction l with
  | nil => simp at h
  | cons e es ih =>
    by_cases hk : e.1 = k
    · simp [hk, List.find?]
    · have h' : es.any (fun e => e.1 = k) = true := by
        simpa [hk] using h
      simpa [hk, List.find?] using ih h'

theorem find_after_append {α : Type} (l : List (String × α)) (k : String) (v : α)
    (h : l.any (fun e => e.1 = k) = false) :
    (l ++ [(k, v)]).find? (fun e => e.1 = k) = some (k, v) := by
  induction l with
  | nil => simp [List.find?]
  | cons e es ih =>
    have hk : ¬ e.1 = k := by
      intro hc
      simp [hc] at h
    have h' : es.any (fun e => e.1 = k) = false := by
      simpa [hk] using h
    simpa [hk, List.find?] using ih h'

theorem storeLookup_storeInsert_self {α : Type} (l : List (String × α)) (k : String) (v : α) :
    storeLookup (storeInsert l k v) k = some v := by
  unfold storeInsert storeLookup
  cases h : l.any (fun e => e.1 = k) with
  | true => rw [if_pos rfl, find_after_overwrite l k v h]; rfl
  | false => rw [if_neg (by simp), find_after_append l k v h]; rfl

theorem begin_store (st : HistoryState) (cur : Option (List (String × RegionResult)))
    (fdr : Bool) (analysis_name filename timestamp : String) (users : List String)
    (feat stat : String) :
    (save_analysis_to_history st cur fdr analysis_name filename timestamp users feat stat).store
      = storeInsert st.store filename
          { name := some analysis_name, timestamp := some timestamp,
            selected_users := some users, selected_feature := some feat,
            selected_statistical := some stat, apply_fdr := some fdr,
            results := cur, status_run := some RUNNING, timestamp_ended := none } := by
  unfold save_analysis_to_history
  split <;> rfl

theorem begin_files_contains (st : HistoryState) (cur : Option (List (String × RegionResult)))
    (fdr : Bool) (analysis_name filename timestamp : String) (users : List String)
    (feat stat : String) :
    (save_analysis_to_history st cur fdr analysis_name filename timestamp users feat
        stat).files.contains filename = true := by
  unfold save_analysis_to_history
  cases h : st.files.contains filename with
  | true => simpa [h] using h
  | false => simp [h]

theorem begin_files_of_contains (st : HistoryState) (cur : Option (List (String × RegionResult)))
    (fdr : Bool) (analysis_name filename timestamp : String) (users : List String)
    (feat stat : String) (h : st.files.contains filename = true) :
    (save_analysis_to_history st cur fdr analysis_name filename timestamp users feat
        stat).files = st.files := by
  unfold save_analysis_to_history
  have hm : filename ∈ st.files := by simpa using h
  simp [hm]

theorem begin_files_count (st : HistoryState) (cur : Option (List (String × RegionResult)))
    (fdr : Bool) (analysis_name filename timestamp : String) (users : List String)
    (feat stat : String) (h : st.files.count filename ≤ 1) :
    (save_analysis_to_history st cur fdr analysis_name filename timestamp users feat
        stat).files.count filename ≤ 1 := by
  unfold save_analysis_to_history
  cases hc : st.files.contains filename with
  | true => simpa [hc] using h
  | false =>
    have hmem : filename ∉ st.files := by simpa using hc
    simp [hc, List.count_append, List.count_eq_zero.mpr hmem]

theorem complete_store (st : HistoryState) (filename : String)
    (results : List (String × RegionResult)) (status : String) (now : String) :
    (save_analysis_results st filename results status now).store
      = storeInsert st.store filename
          (update_pickle_result_file
            (match storeLookup st.store filename with
             | some rec => rec
             | none => emptyAnalysisDict) results status now) := rfl

theorem complete_files (st : HistoryState) (filename : String)
    (results : List (String × RegionResult)) (status : String) (now : String) :
    (save_analysis_results st filename results status now).files = st.files := rfl

/-- C6: begin (`save_analysis_to_history`) followed by complete
(`save_analysis_results`) with status `completed` under the same file name
stores a record whose `status_run` is `completed` and whose `results` equal
exactly what complete was given; the history list keeps at most one entry
for the file name, and a repeated begin under the same file name leaves the
file list unchanged (it relabels in place rather than appending). -/
theorem C6_begin_complete (st : HistoryState)
    (cur : Option (List (String × RegionResult))) (fdr : Bool)
    (analysis_name filename timestamp : String) (users : List String)
    (feat stat : String) (results : List (String × RegionResult)) (now : String)
    (hcount : st.files.count filename ≤ 1) :
    (∃ rec, storeLookup (save_analysis_results
          (save_analysis_to_history st cur fdr analysis_name filename timestamp users feat stat)
          filename results COMPLETED now).store filename = some rec
        ∧ rec.status_run = some COMPLETED ∧ rec.results = some results)
      ∧ (save_analysis_results
          (save_analysis_to_history st cur fdr analysis_name filename timestamp users feat stat)
          filename results COMPLETED now).files.count filename ≤ 1
      ∧ ∀ cur' fdr' name' ts' (users' : List String) feat' stat',
          (save_analysis_to_history
            (save_analysis_to_history st cur fdr analysis_name filename timestamp users feat stat)
            cur' fdr' name' filename ts' users' feat' stat').files
          = (save_analysis_to_history st cur fdr analysis_name filename timestamp users feat
              stat).files := by
  refine ⟨?_, ?_, ?_⟩
  · rw [complete_store, storeLookup_storeInsert_self]
    exact ⟨_, rfl, rfl, rfl⟩
  · rw [complete_files]
    exact begin_files_count st cur fdr analysis_name filename timestamp users feat stat hcount
  · intro cur' fdr' name' ts' users' feat' stat'
    exact begin_files_of_contains _ cur' fdr' name' filename ts' users' feat' stat'
      (begin_files_contains st cur fdr analysis_name filename timestamp users feat stat)

/-- C6 witness: begin and complete on an initially empty history. -/
theorem C6_begin_complete_witness :
    (([] : List String).count "f1.pkl" ≤ 1)
      ∧ ((∃ rec, storeLookup (save_analysis_results
            (save_analysis_to_history ⟨[], [], []⟩ none true "n1" "f1.pkl" "ts" ["u1"] "age"
              "pearson")
            "f1.pkl" [("regionA", RegionResult.neutral)] COMPLETED "ts2").store "f1.pkl"
              = some rec
          ∧ rec.status_run = some COMPLETED
          ∧ rec.results = some [("regionA", RegionResult.neutral)])
        ∧ (save_analysis_results
            (save_analysis_to_history ⟨[], [], []⟩ none true "n1" "f1.pkl" "ts" ["u1"] "age"
              "pearson")
            "f1.pkl" [("regionA", RegionResult.neutral)] COMPLETED "ts2").files.count "f1.pkl" ≤ 1
        ∧ ∀ cur' fdr' name' ts' (users' : List String) feat' stat',
            (save_analysis_to_history
              (save_analysis_to_history ⟨[], [], []⟩ none true "n1" "f1.pkl" "ts" ["u1"] "age"
                "pearson")
              cur' fdr' name' "f1.pkl" ts' users' feat' stat').files
            = (save_analysis_to_history ⟨[], [], []⟩ none true "n1" "f1.pkl" "ts" ["u1"] "age"
                "pearson").files) :=
  ⟨by decide,
   C6_begin_complete ⟨[], [], []⟩ none true "n1" "f1.pkl" "ts" ["u1"] "age" "pearson"
     [("regionA", RegionResult.neutral)] "ts2" (by decide)⟩

/-- C7: loading a record that was persisted by begin-then-complete restores
into the live UI state exactly the cohort, feature, test kind, FDR flag,
results and status that were persisted — the round trip through the store
is lossless for these fields (and `load_previous_analysis` by definition
invokes no statistical computation). -/
theorem C7_load_roundtrip (st : HistoryState)
    (cur : Option (List (String × RegionResult))) (fdr : Bool)
    (analysis_name filename timestamp : String) (users : List String)
    (feat stat : String) (results : List (String × RegionResult)) (now : String) :
    load_previous_analysis
        (save_analysis_results
          (save_analysis_to_history st cur fdr analysis_name filename timestamp users feat stat)
          filename results COMPLETED now).store
        filename
      = some { analysis_name := analysis_name, current_analysis_name := analysis_name,
               selected_users := users, selected_feature := feat,
               selected_statistical := stat, apply_fdr := fdr,
               analysis_results := some results, analysis_status := COMPLETED } := by
  unfold load_previous_analysis
  rw [complete_store, begin_store, storeLookup_storeInsert_self,
    storeLookup_storeInsert_self]
  rfl

/-! ## C8 -/

/-- C8 evidence (code bug): with a non-empty cohort and an empty feature
selection, `run_analysis` raises an uncaught `KeyError` at
`users_df.loc[analysis_users, analysis_feature]` (app.py line 308) before
its own empty-feature notification branch (app.py lines 322-325, which is
unreachable for this input) — an abort without the user-visible rejection
the claim requires.  No state is changed either way (the access precedes
every mutation).  The other invalid fields do produce rejections, shown for
contrast. -/
theorem C8_empty_feature_uncaught :
    run_analysis_validate ["u1"] "name1" "" "pearson" udfNum = RunOutcome.uncaughtException
      ∧ run_analysis_validate ["u1"] "" "" "t-test" udfNum = RunOutcome.uncaughtException
      ∧ run_analysis_validate [] "name1" "age" "pearson" udfNum
          = RunOutcome.rejected "Please select users for analysis"
      ∧ run_analysis_validate ["u1"] "" "age" "pearson" udfNum
          = RunOutcome.rejected "Please provide a name for the analysis"
      ∧ run_analysis_validate ["u1"] "name1" "age" "" udfNum
          = RunOutcome.rejected "Statistical test is not valid for feature" := by
  decide

/-! ## C9 -/

theorem safe_read_total (f : FSFile) (icol : String) (h : hasIndexCol f icol = true) :
    ∃ t, safe_read f icol = some t
      ∧ ((os_path_exists f && os_path_getsize_pos f) = false → t = emptyVolTable) := by
  cases f with
  | absent => exact ⟨emptyVolTable, rfl, fun _ => rfl⟩
  | empty => exact ⟨emptyVolTable, rfl, fun _ => rfl⟩
  | content rows cols =>
    have hc : icol ∈ cols := by simpa [hasIndexCol] using h
    refine ⟨⟨rows, cols.erase icol⟩, ?_, ?_⟩
    · simp [safe_read, os_path_exists, os_path_getsize_pos, pd_read_csv_set_index, hc]
    · intro hfalse
      simp [os_path_exists, os_path_getsize_pos] at hfalse

/-- C9: for every configuration of the three region-volume source files
whose content (when present and non-empty) carries its index column — as
every FreeSurfer-produced table does — `load_brain_volumes_data` succeeds:
each `safe_read` returns a table, an absent or zero-size file is replaced
by the empty table, and the result's columns are the column-wise
concatenation of the three tables with duplicated column names removed
keeping the first occurrence.  A present non-empty file *lacking* its index
column would make `set_index` raise, but that failure is not one "due to a
missing or empty file". -/
theorem C9_loader_tolerates_missing (f1 f2 f3 : FSFile)
    (h1 : hasIndexCol f1 "Measure:volume" = true)
    (h2 : hasIndexCol f2 "lh.aparc.area" = true)
    (h3 : hasIndexCol f3 "rh.aparc.area" = true) :
    ∃ t1 t2 t3 t,
      safe_read f1 "Measure:volume" = some t1
      ∧ safe_read f2 "lh.aparc.area" = some t2
      ∧ safe_read f3 "rh.aparc.area" = some t3
      ∧ load_brain_volumes_data f1 f2 f3 = some t
      ∧ t.cols = dedupFirstStr (t1.cols ++ t2.cols ++ t3.cols)
      ∧ ((os_path_exists f1 && os_path_getsize_pos f1) = false → t1 = emptyVolTable)
      ∧ ((os_path_exists f2 && os_path_getsize_pos f2) = false → t2 = emptyVolTable)
      ∧ ((os_path_exists f3 && os_path_getsize_pos f3) = false → t3 = emptyVolTable) := by
  obtain ⟨t1, ht1, he1⟩ := safe_read_total f1 _ h1
  obtain ⟨t2, ht2, he2⟩ := safe_read_total f2 _ h2
  obtain ⟨t3, ht3, he3⟩ := safe_read_total f3 _ h3
  refine ⟨t1, t2, t3, ⟨rowUnion (rowUnion t1.rows t2.rows) t3.rows,
    dedupFirstStr (t1.cols ++ t2.cols ++ t3.cols)⟩,
    ht1, ht2, ht3, ?_, rfl, he1, he2, he3⟩
  unfold load_brain_volumes_data
  rw [ht1, ht2, ht3]

/-- C9 witness: one file absent, one empty, one with well-formed content. -/
theorem C9_loader_tolerates_missing_witness :
    (hasIndexCol FSFile.absent "Measure:volume" = true)
    ∧ (hasIndexCol FSFile.empty "lh.aparc.area" = true)
    ∧ (hasIndexCol (FSFile.content ["s1"] ["rh.aparc.area", "A", "A", "B"])
        "rh.aparc.area" = true)
    ∧ (∃ t1 t2 t3 t,
        safe_read FSFile.absent "Measure:volume" = some t1
        ∧ safe_read FSFile.empty "lh.aparc.area" = some t2
        ∧ safe_read (FSFile.content ["s1"] ["rh.aparc.area", "A", "A", "B"]) "rh.aparc.area"
            = some t3
        ∧ load_brain_volumes_data FSFile.absent FSFile.empty
            (FSFile.content ["s1"] ["rh.aparc.area", "A", "A", "B"]) = some t
        ∧ t.cols = dedupFirstStr (t1.cols ++ t2.cols ++ t3.cols)
        ∧ ((os_path_exists FSFile.absent && os_path_getsize_pos FSFile.absent) = false
            → t1 = emptyVolTable)
        ∧ ((os_path_exists FSFile.empty && os_path_getsize_pos FSFile.empty) = false
            → t2 = emptyVolTable)
        ∧ ((os_path_exists (FSFile.content ["s1"] ["rh.aparc.area", "A", "A", "B"])
              && os_path_getsize_pos (FSFile.content ["s1"] ["rh.aparc.area", "A", "A", "B"]))
                = false
            → t3 = emptyVolTable)) :=
  ⟨by decide, by decide, by decide,
   C9_loader_tolerates_missing FSFile.absent FSFile.empty
     (FSFile.content ["s1"] ["rh.aparc.area", "A", "A", "B"])
     (by decide) (by decide) (by decide)⟩

/-! ## C10 -/

/-- C10: the watcher's `process_file` is idempotent on the users table: a
file whose basename already has a `User` row leaves the table unchanged, a
dot-leading name never creates a row, and any appended row has the file's
basename as `file_name`, the name without its extension as `user_id`, and
status `preprocessed` — so at most one row per file name is ever created. -/
theorem C10_process_file_idempotent (file_path : String) (table : List User) :
    (startsWithDot (pyBasename file_path) = true → process_file file_path table = table)
      ∧ (table.any (fun u => u.file_name = pyBasename file_path) = true →
          process_file file_path table = table)
      ∧ process_file file_path (process_file file_path table) = process_file file_path table
      ∧ ∀ u ∈ process_file file_path table, u ∈ table ∨
          u = { user_id := pySplitextRoot (pyBasename file_path),
                file_name := pyBasename file_path, status := "preprocessed" } := by
  refine ⟨?_, ?_, ?_, ?_⟩
  · intro h
    unfold process_file
    rw [if_pos h]
  · intro h
    unfold process_file
    by_cases hd : startsWithDot (pyBasename file_path) = true
    · rw [if_pos hd]
    · rw [if_neg hd, if_pos h]
  · by_cases hd : startsWithDot (pyBasename file_path) = true
    · have h1 : process_file file_path table = table := by
        unfold process_file; rw [if_pos hd]
      rw [h1]; exact h1
    · by_cases ha : table.any (fun u => u.file_name = pyBasename file_path) = true
      · have h1 : process_file file_path table = table := by
          unfold process_file; rw [if_neg hd, if_pos ha]
        rw [h1]; exact h1
      · have h1 : process_file file_path table
            = table ++ [{ user_id := pySplitextRoot (pyBasename file_path),
                          file_name := pyBasename file_path, status := "preprocessed" }] := by
          unfold process_file; rw [if_neg hd, if_neg ha]
        rw [h1]
        unfold process_file
        rw [if_neg hd, if_pos (by simp)]
  · intro u hu
    unfold process_file at hu
    by_cases hd : startsWithDot (pyBasename file_path) = true
    · rw [if_pos hd] at hu
      exact Or.inl hu
    · rw [if_neg hd] at hu
      by_cases ha : table.any (fun u => u.file_name = pyBasename file_path) = true
      · rw [if_pos ha] at hu
        exact Or.inl hu
      · rw [if_neg ha] at hu
        rcases List.mem_append.mp hu with h' | h'
        · exact Or.inl h'
        · exact Or.inr (by simpa using h')

/-- C10 witness: a dotfile is skipped, and a file whose basename already
has a row leaves the table unchanged. -/
theorem C10_process_file_idempotent_witness :
    (startsWithDot (pyBasename "/data/.DS_Store") = true
      ∧ process_file "/data/.DS_Store" [] = [])
    ∧ (([⟨"sub01", "sub01.nii", "preprocessed"⟩] : List User).any
          (fun u => u.file_name = pyBasename "/data/sub01.nii") = true
      ∧ process_file "/data/sub01.nii" [⟨"sub01", "sub01.nii", "preprocessed"⟩]
          = [⟨"sub01", "sub01.nii", "preprocessed"⟩]) :=
  ⟨⟨by decide, (C10_process_file_idempotent "/data/.DS_Store" []).1 (by decide)⟩,
   ⟨by decide, (C10_process_file_idempotent "/data/sub01.nii"
      [⟨"sub01", "sub01.nii", "preprocessed"⟩]).2.1 (by decide)⟩⟩

end Brain
